import Mathlib

/-!
Verification of the gidari HTTP-to-storage ingestion core.

This file gives a shallow embedding, in Lean 4, of the `transport` package
(`Upsert` and its helpers) and of the `storage.Txn` transaction multiplexer,
and proves properties of that embedding.

Modelling conventions:
* `time.Time` and `time.Duration` values are modelled as `Int` nanosecond
  counts (Go stores both as 64-bit nanosecond counts; none of the verified
  code paths can overflow 64 bits, so `Int` is faithful).
* Fallible Go functions are modelled with `Except`/`Option` results.
* Go `panic` is modelled with the `GoPanic` error type.
* External collaborators (the `net/url` parser, `time.Parse`/`Format`, the
  web client, the repository drivers) are supplied as oracle functions in
  an `Env` record; the code under verification only forwards to them.
* The side effects of `Upsert` (connecting, opening transactions,
  truncating, starting workers, committing) are recorded in an explicit
  trace of `Effect`s, in program order.
-/

/-- Errors of the transport package (`fmt.Errorf` values). `wrapped m e`
models `fmt.Errorf("m: %w", e)`. `external m` models an opaque error
produced by an external collaborator (driver, web client, URL parser). -/
inductive GoError where
  | missingConfigField (field : String)
  | missingRateLimitField (field : String)
  | missingTimeseriesField (field : String)
  | unableToParse (name : String)
  | invalidRateLimit
  | settingTimeseriesChunks
  | fetchingTimeseriesChunks
  | wrapped (msg : String) (cause : GoError)
  | external (msg : String)
deriving DecidableEq, Repr

/-- Go runtime panics relevant to channel misuse: sending on a closed
channel and closing an already-closed channel both panic. -/
inductive GoPanic where
  | sendOnClosedChannel
  | closeOfClosedChannel
deriving DecidableEq, Repr

/-- Observable side effects of `Upsert`, in program order. `rollback` is
included so that its absence from every trace is a meaningful statement:
the source of `Upsert` never calls `Rollback` on any repository. -/
inductive Effect where
  | connect
  | openTx (dns : String)
  | truncate (dns : String) (tables : List String)
  | startWorkers
  | enqueue (jobs : Nat)
  | awaitDone (jobs : Nat)
  | commit (dns : String)
  | rollback (dns : String)
deriving DecidableEq, Repr

/-- A parsed URL: `net/url.URL` restricted to the parts the transport code
reads, a path and a query multimap (`url.Values`). -/
structure URL where
  path : String
  query : List (String × String)
deriving DecidableEq, Repr

/-- Lookup of all values of a query key: Go `query[name]` on `url.Values`. -/
def queryGet (q : List (String × String)) (name : String) : List String :=
  (q.filter (fun p => p.1 == name)).map (fun p => p.2)

/-- Go `url.Values.Set(name, v)` / Go map assignment `m[name] = v`: replace
every binding of `name` by the single binding `(name, v)`. -/
def setParam (q : List (String × String)) (name v : String) : List (String × String) :=
  (q.filter (fun p => p.1 != name)) ++ [(name, v)]

/-- The query-overlay step of `newFetchConfig`: for each pair of the
request's query map, `query.Set(n, v)` onto the URL's existing query. -/
def applyQuery (uq rq : List (String × String)) : List (String × String) :=
  rq.foldl (fun acc p => setParam acc p.1 p.2) uq

/-- Go's `time.RFC3339` layout constant. -/
def rfc3339 : String := "2006-01-02T15:04:05Z07:00"

/-- The `timeseries` struct of the transport package. `period` is the chunk
size in seconds (`int32` in Go); `layout` is the optional parse layout.
The computed `chunks` field is modelled as the return value of
`setChunks` rather than as a mutable field. -/
structure Timeseries where
  startName : String
  endName : String
  period : Int
  layout : Option String
deriving DecidableEq, Repr

/-- The layout after `setChunks` has defaulted it: RFC3339 when absent. -/
def layoutOf (ts : Timeseries) : String := ts.layout.getD rfc3339

/-- The chunk loop of `timeseries.setChunks`, transcribed from the source:
`for start.Before(end) { next := start.Add(period); if next.Before(end)
{ append [start,next] } else { append [start,end] }; start = next }`.
The `0 < p` conjunct is required for termination; the Go loop does not
terminate when the period is not positive, and every theorem about the
loop carries `0 < p` as a hypothesis. -/
def setChunksLoop (p s e : Int) : List (Int × Int) :=
  if 0 < p ∧ s < e then
    (if s + p < e then (s, s + p) else (s, e)) :: setChunksLoop p (s + p) e
  else []
termination_by (e - s).toNat
decreasing_by omega

/-- Modelled from the spec: the reference chunk recurrence of §4.C, "walk
`cursor := start`; while `cursor < end` emit `[cursor, min(cursor+period,
end)]` and advance `cursor := cursor + period`". Stated separately from
`setChunksLoop` (the source transcription) so the two can be compared. -/
def specChunks (p s e : Int) : List (Int × Int) :=
  if 0 < p ∧ s < e then (s, min (s + p) e) :: specChunks p (s + p) e else []
termination_by (e - s).toNat
decreasing_by omega

/-- `timeseries.setChunks`, transcribed from the source. `parse` is the
oracle for Go's `time.Parse(layout, value)`; a `none` result models a
parse error. Times are `Int` nanoseconds, so the Go step
`time.Second * time.Duration(ts.Period)` is `1000000000 * ts.period`. -/
def setChunks (parse : String → String → Option Int) (ts : Timeseries)
    (q : List (String × String)) : Except GoError (List (Int × Int)) :=
  match queryGet q ts.startName with
  | [s0] =>
    match parse (layoutOf ts) s0 with
    | none => .error (.unableToParse "startTime")
    | some s =>
      match queryGet q ts.endName with
      | [e0] =>
        match parse (layoutOf ts) e0 with
        | none => .error (.unableToParse "endTime")
        | some e => .ok (setChunksLoop (1000000000 * ts.period) s e)
      | _ => .error (.missingTimeseriesField "endName")
  | _ => .error (.missingTimeseriesField "startName")

/-- The value of `rate.Every(interval)` from `golang.org/x/time/rate`,
identified by the refill interval in nanoseconds: `rate.Every` returns the
limit `1/interval.Seconds()` events per second, so `every i` stands for
the limit `10^9 / i` events per second, and a non-positive interval yields
the infinite limit. Two positive intervals yield equal limits iff they are
equal, so this identification is faithful. -/
inductive RateLimit where
  | inf
  | every (intervalNs : Int)
deriving DecidableEq, Repr

/-- Go `rate.Every`, on the interval representation. -/
def goRateEvery (intervalNs : Int) : RateLimit :=
  if intervalNs ≤ 0 then .inf else .every intervalNs

/-- The pair of arguments `Upsert` passes to `rate.NewLimiter`, transcribed
from the source: `rateLimitPeriodS := *Period / time.Second` (Go `Duration`
division, i.e. integer division by `10^9`, the quotient then being itself a
`Duration`, i.e. a nanosecond count) and
`rate.NewLimiter(rate.Every(rateLimitPeriodS), *Burst)`. -/
def upsertLimiter (burst period : Int) : RateLimit × Int :=
  (goRateEvery (period / 1000000000), burst)

/-- Modelled from the spec: the limiter the spec's §4.A and §4.H.4 describe,
"burst `B` and refill interval `P/B` (equivalently, rate = `B / P` tokens
per second)". Stated separately so it can be compared with
`upsertLimiter`, the transcription of the source. -/
def specClaimedLimiter (burst period : Int) : RateLimit × Int :=
  (goRateEvery (period / burst), burst)

/-- `RateLimitConfig`: both fields are pointers in Go, hence `Option`. -/
structure RateLimitConfig where
  burst : Option Int
  period : Option Int
deriving DecidableEq, Repr

/-- `RateLimitConfig.validate`, transcribed from the source: it checks only
that the two pointer fields are non-nil. -/
def RateLimitConfig.validate (rl : RateLimitConfig) : Option GoError :=
  if rl.burst = none then some (.missingRateLimitField "burst")
  else if rl.period = none then some (.missingRateLimitField "period")
  else none

/-- The `Request` struct (the fields the verified code reads). -/
structure Request where
  method : String
  endpoint : String
  query : List (String × String)
  timeseries : Option Timeseries
  table : Option String
deriving DecidableEq, Repr

/-- The `Config` struct (the fields the verified code reads). -/
structure Config where
  url : String
  dnsList : List String
  requests : List Request
  rateLimitConfig : Option RateLimitConfig
  truncate : Bool
deriving DecidableEq, Repr

/-- `Config.validate`, transcribed from the source. -/
def Config.validate (cfg : Config) : Option GoError :=
  match cfg.rateLimitConfig with
  | none => some (.missingConfigField "rateLimit")
  | some rl =>
    match rl.validate with
    | some _ => some .invalidRateLimit
    | none => none

/-- The limiter arguments `Upsert` builds once `validate` has passed; the
`getD 0` models the Go pointer dereferences `*Burst` / `*Period`, which
`validate` has made safe. -/
def cfgLimiter (cfg : Config) : RateLimit × Int :=
  match cfg.rateLimitConfig with
  | some rl => upsertLimiter (rl.burst.getD 0) (rl.period.getD 0)
  | none => (.inf, 0)

/-- `web.FetchConfig` restricted to the parts the verified code
constructs and reads. The shared rate limiter is a single value
(`cfgLimiter cfg`) for the whole job and is therefore not repeated here. -/
structure FetchConfig where
  method : String
  url : URL
deriving DecidableEq, Repr

/-- The `flattenedRequest` struct: one per actual HTTP call. -/
structure FlattenedRequest where
  fetchConfig : FetchConfig
  table : Option String
deriving DecidableEq, Repr

/-- Oracles for all external collaborators of `Upsert`. A `none` error
means the operation succeeds. `joinPath`/`parseURL` model `url.JoinPath`
and `url.Parse`; `parseTime`/`formatTime` model `time.Parse` and
`time.Format` (layout first). -/
structure Env where
  connectErr : Option GoError
  openTxErr : String → Option GoError
  truncateErr : String → Option GoError
  commitErr : String → Option GoError
  joinPath : String → String → Option String
  parseURL : String → Option URL
  parseTime : String → String → Option Int
  formatTime : String → Int → String

/-- `newFetchConfig`, transcribed from the source: join base URL and
endpoint, parse, overlay the request's query, package the descriptor. -/
def newFetchConfig (env : Env) (cfgUrl : String) (req : Request) :
    Except GoError FetchConfig :=
  match env.joinPath cfgUrl req.endpoint with
  | none => .error (.external "error joining url to endpoint")
  | some raw =>
    match env.parseURL raw with
    | none => .error (.external "error parsing raw url")
    | some uri => .ok ⟨req.method, ⟨uri.path, applyQuery uri.query req.query⟩⟩

/-- One iteration of the chunk loop's map mutation, transcribed from the
source: `chunkReq.Query[ts.StartName] = chunk[0].Format(layout);
chunkReq.Query[ts.EndName] = chunk[1].Format(layout)`. Because `chunkReq`
aliases the original request (`chunkReq := req` copies a pointer), this
is an in-place update of the caller's query map, modelled by threading
the map through the loop. -/
def chunkQuery (ts : Timeseries) (format : String → Int → String)
    (q : List (String × String)) (c : Int × Int) : List (String × String) :=
  setParam (setParam q ts.startName (format (layoutOf ts) c.1))
    ts.endName (format (layoutOf ts) c.2)

/-- The query maps the successive chunk iterations observe: the `i`-th
entry is the state of the shared query map when the `i`-th chunk's fetch
config is built. -/
def chunkQueries (ts : Timeseries) (format : String → Int → String)
    (q0 : List (String × String)) (chunks : List (Int × Int)) :
    List (List (String × String)) :=
  (List.scanl (chunkQuery ts format) q0 chunks).tail

/-- The chunk loop of `Upsert`, transcribed from the source: for each chunk,
mutate the aliased request's query in place and rebuild a fetch config
from the mutated request. Returns the flattened requests and the request
as the loop leaves it (the caller sees the mutated query map). -/
def planChunks (env : Env) (cfgUrl : String) (ts : Timeseries)
    (table : Option String) :
    List (Int × Int) → Request → Except GoError (List FlattenedRequest) × Request
  | [], req => (.ok [], req)
  | c :: rest, req =>
    let req' := { req with query := chunkQuery ts env.formatTime req.query c }
    match newFetchConfig env cfgUrl req' with
    | .error _ => (.error .fetchingTimeseriesChunks, req')
    | .ok fc =>
      match planChunks env cfgUrl ts table rest req' with
      | (.ok l, rf) => (.ok (⟨fc, table⟩ :: l), rf)
      | (.error err, rf) => (.error err, rf)

/-- The per-request planning step of `Upsert`, transcribed from the source:
default the method to GET, build the fetch config, and either emit it
directly or expand the timeseries (running `setChunks` on the built URL's
query and then the chunk loop). The returned `Request` is the request as
the loop leaves it. -/
def planRequest (env : Env) (cfg : Config) (req : Request) :
    Except GoError (List FlattenedRequest) × Request :=
  let req := if req.method = "" then { req with method := "GET" } else req
  match newFetchConfig env cfg.url req with
  | .error err => (.error err, req)
  | .ok fc =>
    match req.timeseries with
    | none => (.ok [⟨fc, req.table⟩], req)
    | some ts =>
      match setChunks env.parseTime ts fc.url.query with
      | .error _ => (.error .settingTimeseriesChunks, req)
      | .ok chunks => planChunks env cfg.url ts req.table chunks req

/-- The planning loop of `Upsert` over all requests, transcribed from the
source. Collects the flattened requests and, per request that declares a
table, appends that table to the truncation list (`truncateRequest.Tables
= append(..., *table)`). Returns the requests as the loop leaves them. -/
def planPhase (env : Env) (cfg : Config) :
    List Request → Except GoError (List FlattenedRequest × List String) × List Request
  | [] => (.ok ([], []), [])
  | req :: rest =>
    match planRequest env cfg req with
    | (.error err, req') => (.error err, req' :: rest)
    | (.ok flats, req') =>
      match planPhase env cfg rest with
      | (.ok (fl, tl), rs) => (.ok (flats ++ fl, req'.table.toList ++ tl), req' :: rs)
      | (.error err, rs) => (.error err, req' :: rs)

/-- The table list `Upsert` accumulates on a successful planning pass: one
entry per request that declares a table, in request order, duplicates
retained. -/
def collectTables (cfg : Config) : List String :=
  cfg.requests.filterMap Request.table

/-- The repository-opening loop of `Upsert` (`cfg.repos`), transcribed from
the source: for each dns, attempt `repository.NewTx`; the first failure
returns `WrapRepositoryError(FailedToCreateRepositoryError(err))`. The
trace records one `openTx` attempt per dns reached. -/
def openReposPhase (env : Env) : List String → Option GoError × List Effect
  | [] => (none, [])
  | d :: rest =>
    match env.openTxErr d with
    | some e =>
      (some (.wrapped "repository" (.wrapped "failed to create repository" e)), [.openTx d])
    | none =>
      let (r, t) := openReposPhase env rest
      (r, .openTx d :: t)

/-- The truncation loop of `Upsert`, transcribed from the source: for each
backend (in `dnsList` order), one `repo.Truncate(ctx, truncateRequest)`
call carrying the whole accumulated table list; the first failure returns
`fmt.Errorf("unable to truncate tables: %w", err)`. -/
def truncatePhase (env : Env) (tables : List String) :
    List String → Option GoError × List Effect
  | [] => (none, [])
  | d :: rest =>
    match env.truncateErr d with
    | some e => (some (.wrapped "unable to truncate tables" e), [.truncate d tables])
    | none =>
      let (r, t) := truncatePhase env tables rest
      (r, .truncate d tables :: t)

/-- The commit loop of `Upsert`, transcribed from the source: for each
backend in order, `repo.Commit()`; the first failure returns
`fmt.Errorf("unable to commit transaction: %w", err)` and no further
commit is attempted. No rollback is ever issued. -/
def commitPhase (env : Env) : List String → Except GoError Unit × List Effect
  | [] => (.ok (), [])
  | d :: rest =>
    match env.commitErr d with
    | some e => (.error (.wrapped "unable to commit transaction" e), [.commit d])
    | none =>
      let (r, t) := commitPhase env rest
      (r, .commit d :: t)

/-- The backends whose `Commit()` the commit loop reaches: every backend up
to and including the first failing one. -/
def commitAttempts (env : Env) : List String → List String
  | [] => []
  | d :: rest =>
    match env.commitErr d with
    | some _ => [d]
    | none => d :: commitAttempts env rest

/-- The cause of the first failing `Commit()`, if any. -/
def firstCommitErr (env : Env) : List String → Option GoError
  | [] => none
  | d :: rest =>
    match env.commitErr d with
    | some e => some e
    | none => firstCommitErr env rest

deriving instance DecidableEq for Except

/-- The outcome of a run of `Upsert`: the returned error value, the trace
of side effects in program order, and the caller's request structs as the
run leaves them (the planning loop mutates their query maps in place). -/
structure UpsertResult where
  result : Except GoError Unit
  trace : List Effect
  finalRequests : List Request
  limiter : Option (RateLimit × Int)
deriving DecidableEq, Repr

/-- `transport.Upsert`, transcribed from the source as a sequential program
over the oracle environment: validate, connect, open one transaction per
dns, build the shared rate limiter, plan (flatten) the requests, then
optionally truncate, start the worker pools, enqueue, await completion,
and commit each backend in order. The worker pools only log-fatal on
failure (they never make `Upsert` return an error), so the pipeline stage
is recorded in the trace but has no error path. `limiter` is `some` once
`rate.NewLimiter` has been called. -/
def Upsert (env : Env) (cfg : Config) : UpsertResult :=
  match cfg.validate with
  | some e => ⟨.error e, [], cfg.requests, none⟩
  | none =>
    match env.connectErr with
    | some e =>
      ⟨.error (.wrapped "unable to connect to client" e), [.connect], cfg.requests, none⟩
    | none =>
      match openReposPhase env cfg.dnsList with
      | (some e, topen) => ⟨.error e, .connect :: topen, cfg.requests, none⟩
      | (none, topen) =>
        let lim := cfgLimiter cfg
        match planPhase env cfg cfg.requests with
        | (.error e, rs) => ⟨.error e, .connect :: topen, rs, some lim⟩
        | (.ok (flats, tables), rs) =>
          match (if cfg.truncate then truncatePhase env tables cfg.dnsList else (none, [])) with
          | (some e, ttr) => ⟨.error e, .connect :: (topen ++ ttr), rs, some lim⟩
          | (none, ttr) =>
            let pipeline := [.startWorkers, .enqueue flats.length, .awaitDone flats.length]
            let (cr, ctr) := commitPhase env cfg.dnsList
            ⟨cr, .connect :: (topen ++ ttr ++ pipeline ++ ctr), rs, some lim⟩

/-- A Go channel with its closed flag and buffered contents. -/
structure GoChan (α : Type) where
  closed : Bool
  buf : List α
deriving DecidableEq, Repr

/-- Go channel send: `ch <- a` panics iff the channel is closed. -/
def GoChan.send (c : GoChan α) (a : α) : Except GoPanic (GoChan α) :=
  if c.closed then .error .sendOnClosedChannel
  else .ok { c with buf := c.buf ++ [a] }

/-- Go `close(ch)`: panics iff the channel is already closed. -/
def GoChan.chanClose (c : GoChan α) : Except GoPanic (GoChan α) :=
  if c.closed then .error .closeOfClosedChannel
  else .ok { c with closed := true }

/-- The `storage.Txn` struct: the submission channel `ch` (of operation
closures, whose type is the parameter `φ`), the commit-decision channel
`commit`, and the driver's final status. The driver loop is outside the
verified file, so the status it will report on the `done` channel is
modelled as the `doneVal` field; a `Commit`/`Rollback` that blocks on
`<-txn.done` receives that value. -/
structure Txn (φ : Type) where
  ch : GoChan φ
  commitCh : GoChan Bool
  doneVal : Option GoError
deriving DecidableEq, Repr

/-- `Txn.Send`, transcribed from the source: `txn.ch <- fn`. -/
def Txn.txSend (t : Txn φ) (fn : φ) : Except GoPanic (Txn φ) :=
  match t.ch.send fn with
  | .error p => .error p
  | .ok ch' => .ok { t with ch := ch' }

/-- `Txn.Commit`, transcribed from the source: `close(txn.ch)`, then
`txn.commit <- true`, then `return <-txn.done`. -/
def Txn.txCommit (t : Txn φ) : Except GoPanic (Txn φ × Option GoError) :=
  match t.ch.chanClose with
  | .error p => .error p
  | .ok ch' =>
    match t.commitCh.send true with
    | .error p => .error p
    | .ok cc' => .ok ({ t with ch := ch', commitCh := cc' }, t.doneVal)

/-- `Txn.Rollback`, transcribed from the source: `close(txn.ch)`, then
`txn.commit <- false`, then `return <-txn.done`. -/
def Txn.txRollback (t : Txn φ) : Except GoPanic (Txn φ × Option GoError) :=
  match t.ch.chanClose with
  | .error p => .error p
  | .ok ch' =>
    match t.commitCh.send false with
    | .error p => .error p
    | .ok cc' => .ok ({ t with ch := ch', commitCh := cc' }, t.doneVal)

/-- The shape the spec §8.1 ascribes to a chunking of `[s, e]` with period
`p`: first chunk starts at `s`, last chunk ends at `e`, consecutive chunks
are contiguous, every chunk is nonempty and is either a full period or
clipped at `e`, and the chunks' union is exactly `[s, e]`. -/
structure ChunksShape (p s e : Int) (l : List (Int × Int)) : Prop where
  head : l.head?.map Prod.fst = some s
  last : l.getLast?.map Prod.snd = some e
  contiguous : l.Chain' (fun a b => a.2 = b.1)
  pieces : ∀ c ∈ l, c.1 < c.2 ∧ c.2 = min (c.1 + p) e
  union : ∀ t : Int, (∃ c ∈ l, c.1 ≤ t ∧ t ≤ c.2) ↔ (s ≤ t ∧ t ≤ e)

/-- A fully successful oracle environment used by concrete witnesses: the
URL joiner concatenates, the parser yields an empty query, the time
parser knows the two literals `"A"` (0s) and `"B"` (2.5s), and the
formatter names whole half-seconds. -/
def envOK : Env where
  connectErr := none
  openTxErr := fun _ => none
  truncateErr := fun _ => none
  commitErr := fun _ => none
  joinPath := fun a b => some (a ++ b)
  parseURL := fun s => some ⟨s, []⟩
  parseTime := fun _ v => if v = "A" then some 0 else if v = "B" then some 2500000000 else none
  formatTime := fun _ t =>
    if t = 0 then "s0" else if t = 1000000000 then "s1"
    else if t = 2000000000 then "s2" else if t = 2500000000 then "s3" else "sx"

/-- An environment in which every backend's `Commit()` fails with cause
`boom`, except backend `"a"`. -/
def envBoom : Env :=
  { envOK with commitErr := fun d => if d = "a" then none else some (.external "boom") }

/-- A request with a table and no timeseries. -/
def reqTable : Request := ⟨"GET", "/x", [], none, some "t"⟩

/-- A timeseries spec over query keys `start`/`end`, one-second period,
default layout. -/
def tsW : Timeseries := ⟨"start", "end", 1, none⟩

/-- A timeseries request whose window `"A"`..`"B"` spans 2.5 periods. -/
def reqTS : Request := ⟨"GET", "/c", [("start", "A"), ("end", "B")], some tsW, some "u"⟩

/-- A valid rate-limit config: burst 10 per 1s period. -/
def rlB10P1 : RateLimitConfig := ⟨some 10, some 1000000000⟩

/-- A config whose rate limit carries burst 0 and period 0: both fields
present, neither positive. -/
def cfgZeroRL : Config := ⟨"u", [], [], some ⟨some 0, some 0⟩, false⟩

/-- A config without a rate limit. -/
def cfgNoRL : Config := ⟨"u", ["d"], [reqTable], none, false⟩

/-- A config with burst 10 / period 1s and one backend. -/
def cfgB10P1 : Config := ⟨"u", ["d"], [], some rlB10P1, false⟩

/-- A config with two requests naming the same table, truncation on. -/
def cfgDupTables : Config := ⟨"u", ["d"], [reqTable, reqTable], some rlB10P1, true⟩

/-- Two-backend configs that differ only in the name of the second (the
failing) backend. -/
def cfgDnsAB : Config := ⟨"u", ["a", "b"], [], some rlB10P1, false⟩

/-- Companion of `cfgDnsAB` with the second backend renamed. -/
def cfgDnsAX : Config := ⟨"u", ["a", "x"], [], some rlB10P1, false⟩

/-- A config holding the timeseries request, for the expansion witness. -/
def cfgTS : Config := ⟨"u", ["d"], [reqTS], some rlB10P1, false⟩

/-- A fresh transaction on an unused pair of channels, with the driver set
to report success. -/
def txnFresh : Txn Unit := ⟨⟨false, []⟩, ⟨false, []⟩, none⟩

/-- The source's chunk loop emits exactly the spec's reference recurrence:
the branch `if next.Before(end)` emits `[start, next]` or `[start, end]`,
which is `[start, min(start+period, end)]`. -/
theorem setChunksLoop_eq_specChunks (p s e : Int) : setChunksLoop p s e = specChunks p s e := by
  rw [setChunksLoop, specChunks]
  split
  · rw [setChunksLoop_eq_specChunks p (s + p) e]
    rcases lt_or_ge (s + p) e with h2 | h2
    · rw [if_pos h2, min_eq_left (le_of_lt h2)]
    · rw [if_neg (not_lt.mpr h2), min_eq_right h2]
  · rfl
termination_by (e - s).toNat
decreasing_by omega

/-- An empty window yields no chunks. -/
theorem specChunks_of_ge (p s e : Int) (h : e ≤ s) : specChunks p s e = [] := by
  rw [specChunks, if_neg]
  intro hc
  omega

/-- A window of at most one period yields the single clipped chunk. -/
theorem specChunks_single (p s e : Int) (hp : 0 < p) (hse : s < e) (hle : e ≤ s + p) :
    specChunks p s e = [(s, e)] := by
  rw [specChunks, if_pos ⟨hp, hse⟩, min_eq_right hle, specChunks_of_ge p (s + p) e (by omega)]

/-- The chunks of a nonempty window have the shape the spec ascribes to
them: they start at `s`, end at `e`, are contiguous, nonempty, of one
period each unless clipped at `e`, and cover exactly `[s, e]`. -/
theorem specChunks_shape (p : Int) (hp : 0 < p) (s e : Int) (hse : s < e) :
    ChunksShape p s e (specChunks p s e) := by
  rw [specChunks, if_pos ⟨hp, hse⟩]
  by_cases h2 : s + p < e
  · have ih := specChunks_shape p hp (s + p) e h2
    obtain ⟨ihead, ilast, ichain, ipieces, iunion⟩ := ih
    have hne : specChunks p (s + p) e ≠ [] := by
      intro hnil
      rw [hnil] at ihead
      simp at ihead
    rw [min_eq_left (le_of_lt h2)]
    refine ⟨by simp, ?_, ?_, ?_, ?_⟩
    · obtain ⟨b, l'', hbl⟩ := List.exists_cons_of_ne_nil hne
      rw [hbl, List.getLast?_cons_cons, ← hbl]
      exact ilast
    · refine List.chain'_cons'.mpr ⟨?_, ichain⟩
      intro b hb
      cases hh : (specChunks p (s + p) e).head? with
      | none => rw [hh] at hb; simp at hb
      | some b' =>
        rw [hh] at hb ihead
        simp at hb ihead
        subst hb
        simpa using ihead.symm
    · intro c hc
      rcases List.mem_cons.mp hc with rfl | hc'
      · exact ⟨by omega, by rw [min_eq_left (by omega)]⟩
      · exact ipieces c hc'
    · intro t
      constructor
      · rintro ⟨c, hc, hct⟩
        rcases List.mem_cons.mp hc with rfl | hc'
        · simp only at hct
          omega
        · have := (iunion t).mp ⟨c, hc', hct⟩
          omega
      · intro hst
        by_cases ht : t ≤ s + p
        · exact ⟨(s, s + p), List.mem_cons_self _ _, by omega⟩
        · obtain ⟨c, hc, hct⟩ := (iunion t).mpr ⟨by omega, hst.2⟩
          exact ⟨c, List.mem_cons_of_mem _ hc, hct⟩
  · have he : e ≤ s + p := not_lt.mp h2
    have htail : specChunks p (s + p) e = [] := specChunks_of_ge p (s + p) e (by omega)
    rw [min_eq_right he, htail]
    refine ⟨by simp, by simp, by simp, ?_, ?_⟩
    · intro c hc
      rcases List.mem_cons.mp hc with rfl | hc'
      · exact ⟨hse, by rw [min_eq_right he]⟩
      · simp at hc'
    · intro t
      simp only [List.mem_singleton]
      constructor
      · rintro ⟨c, rfl, hct⟩
        exact hct
      · intro hst
        exact ⟨(s, e), rfl, hst⟩
termination_by (e - s).toNat
decreasing_by omega

/-- C2: for a URL query carrying exactly one well-formed value for each of
the start and end names, `setChunks` produces exactly the spec's reference
recurrence (`specChunks`, with the period applied in seconds); for
`start < end` the chunks start at `start`, end at `end`, are contiguous,
in increasing order, all of length one period except possibly the clipped
last one, and their union is exactly `[start, end]`; `start >= end`
yields the empty sequence without error; and a period at least the window
yields the single chunk `[start, end]`. -/
theorem c2_planner (parse : String → String → Option Int) (ts : Timeseries)
    (q : List (String × String)) (s0 e0 : String) (s e : Int)
    (hp : 0 < ts.period)
    (h1 : queryGet q ts.startName = [s0])
    (h2 : parse (layoutOf ts) s0 = some s)
    (h3 : queryGet q ts.endName = [e0])
    (h4 : parse (layoutOf ts) e0 = some e) :
    setChunks parse ts q = .ok (specChunks (1000000000 * ts.period) s e)
    ∧ (e ≤ s → setChunks parse ts q = .ok [])
    ∧ (s < e → ChunksShape (1000000000 * ts.period) s e (specChunks (1000000000 * ts.period) s e))
    ∧ (s < e → e ≤ s + 1000000000 * ts.period →
        setChunks parse ts q = .ok [(s, e)]) := by
  have hmain : setChunks parse ts q = .ok (specChunks (1000000000 * ts.period) s e) := by
    simp only [setChunks, h1, h2, h3, h4, setChunksLoop_eq_specChunks]
  have hps : 0 < 1000000000 * ts.period := by positivity
  refine ⟨hmain, ?_, ?_, ?_⟩
  · intro hes
    rw [hmain, specChunks_of_ge _ _ _ hes]
  · intro hse
    exact specChunks_shape _ hps s e hse
  · intro hse hle
    rw [hmain, specChunks_single _ _ _ hps hse hle]

/-- Witness for C2 at a concrete input: query keys `start`/`end` bound to
the literals `"A"` (0s) and `"B"` (2.5s) with a one-second period produce
the three chunks 0s–1s, 1s–2s, 2s–2.5s. -/
theorem c2_planner_witness :
    0 < tsW.period
    ∧ queryGet [("start", "A"), ("end", "B")] tsW.startName = ["A"]
    ∧ envOK.parseTime (layoutOf tsW) "A" = some 0
    ∧ setChunks envOK.parseTime tsW [("start", "A"), ("end", "B")] =
        .ok (specChunks (1000000000 * tsW.period) 0 2500000000)
    ∧ specChunks (1000000000 * tsW.period) 0 2500000000 =
        [(0, 1000000000), (1000000000, 2000000000), (2000000000, 2500000000)] := by
  refine ⟨by decide, by decide, by decide, ?_, ?_⟩
  · exact (c2_planner envOK.parseTime tsW [("start", "A"), ("end", "B")] "A" "B" 0 2500000000
      (by decide) (by decide) (by decide) (by decide) (by decide)).1
  · show specChunks 1000000000 0 2500000000 = _
    simp [specChunks]

/-- C8: the error taxonomy of `setChunks`. The start name must appear
exactly once, else `MissingTimeseriesField("startName")`; a present start
value that fails to parse under the layout yields
`UnableToParse("startTime")`; then likewise for the end name with
`MissingTimeseriesField("endName")` / `UnableToParse("endTime")`; the
layout defaults to RFC3339 when absent; and an error excludes chunks. -/
theorem c8_timeseries_errors (parse : String → String → Option Int) (ts : Timeseries) :
    (∀ q, (queryGet q ts.startName).length ≠ 1 →
        setChunks parse ts q = .error (.missingTimeseriesField "startName"))
    ∧ (∀ q s0, queryGet q ts.startName = [s0] → parse (layoutOf ts) s0 = none →
        setChunks parse ts q = .error (.unableToParse "startTime"))
    ∧ (∀ q s0 s, queryGet q ts.startName = [s0] → parse (layoutOf ts) s0 = some s →
        (queryGet q ts.endName).length ≠ 1 →
        setChunks parse ts q = .error (.missingTimeseriesField "endName"))
    ∧ (∀ q s0 s e0, queryGet q ts.startName = [s0] → parse (layoutOf ts) s0 = some s →
        queryGet q ts.endName = [e0] → parse (layoutOf ts) e0 = none →
        setChunks parse ts q = .error (.unableToParse "endTime"))
    ∧ (ts.layout = none → layoutOf ts = rfc3339)
    ∧ (∀ q err, setChunks parse ts q = .error err → ∀ l, setChunks parse ts q ≠ .ok l) := by
  refine ⟨?_, ?_, ?_, ?_, ?_, ?_⟩
  · intro q h
    rcases hq : queryGet q ts.startName with _ | ⟨x, _ | ⟨y, t⟩⟩
    · simp only [setChunks, hq]
    · rw [hq] at h; simp at h
    · simp only [setChunks, hq]
  · intro q s0 hq hp
    simp only [setChunks, hq, hp]
  · intro q s0 s hq hp h
    rcases he : queryGet q ts.endName with _ | ⟨x, _ | ⟨y, t⟩⟩
    · simp only [setChunks, hq, hp, he]
    · rw [he] at h; simp at h
    · simp only [setChunks, hq, hp, he]
  · intro q s0 s e0 hq hp he hpe
    simp only [setChunks, hq, hp, he, hpe]
  · intro h
    rw [layoutOf, h]
    rfl
  · intro q err herr l hok
    rw [herr] at hok
    exact Except.noConfusion hok

/-- Witness for C8 at a concrete input: an empty query is missing the
start field. -/
theorem c8_timeseries_errors_witness :
    setChunks envOK.parseTime tsW [] = .error (.missingTimeseriesField "startName") :=
  (c8_timeseries_errors envOK.parseTime tsW).1 [] (by decide)

/-- C7: on a transaction whose channels are still open, `Commit` closes the
submission channel, then pushes `true` on the commit channel, then
returns the driver's final status from the done channel; `Rollback` is
identical with decision `false`; and `Send` only appends the function to
the submission channel's buffer, leaving everything else unchanged. -/
theorem c7_txn_protocol {φ : Type} (t : Txn φ) (fn : φ)
    (hch : t.ch.closed = false) (hcc : t.commitCh.closed = false) :
    t.txCommit = .ok ({ t with
        ch := { t.ch with closed := true },
        commitCh := { t.commitCh with buf := t.commitCh.buf ++ [true] } }, t.doneVal)
    ∧ t.txRollback = .ok ({ t with
        ch := { t.ch with closed := true },
        commitCh := { t.commitCh with buf := t.commitCh.buf ++ [false] } }, t.doneVal)
    ∧ t.txSend fn = .ok { t with ch := { t.ch with buf := t.ch.buf ++ [fn] } } := by
  refine ⟨?_, ?_, ?_⟩
  · simp [Txn.txCommit, GoChan.chanClose, GoChan.send, hch, hcc]
  · simp [Txn.txRollback, GoChan.chanClose, GoChan.send, hch, hcc]
  · simp [Txn.txSend, GoChan.send, hch]

/-- Witness for C7 at a concrete transaction. -/
theorem c7_txn_protocol_witness :
    txnFresh.txCommit = .ok ({ txnFresh with
        ch := { txnFresh.ch with closed := true },
        commitCh := { txnFresh.commitCh with buf := [true] } }, txnFresh.doneVal)
    ∧ txnFresh.txSend () = .ok { txnFresh with ch := { txnFresh.ch with buf := [()] } } :=
  ⟨(c7_txn_protocol txnFresh () rfl rfl).1, (c7_txn_protocol txnFresh () rfl rfl).2.2⟩

/-- C10: the usage protocol is not enforced by `Txn` itself: once `Commit`
or `Rollback` has returned on a transaction, the submission channel is
closed, so a subsequent `Send` panics (send on closed channel) and a
second `Commit` or `Rollback` panics (close of closed channel); none of
them returns an error value. -/
theorem c10_txn_reuse_panics {φ : Type} (t t' : Txn φ) (r : Option GoError) (fn : φ)
    (h : t.txCommit = .ok (t', r) ∨ t.txRollback = .ok (t', r)) :
    t'.txSend fn = .error .sendOnClosedChannel
    ∧ t'.txCommit = .error .closeOfClosedChannel
    ∧ t'.txRollback = .error .closeOfClosedChannel := by
  have hclosed : t'.ch.closed = true := by
    rcases h with h | h
    all_goals {
      cases hch : t.ch.closed
      · cases hcc : t.commitCh.closed
        · simp [Txn.txCommit, Txn.txRollback, GoChan.chanClose, GoChan.send, hch, hcc] at h
          rw [← h.1]
        · simp [Txn.txCommit, Txn.txRollback, GoChan.chanClose, GoChan.send, hch, hcc] at h
      · simp [Txn.txCommit, Txn.txRollback, GoChan.chanClose, hch] at h
    }
  refine ⟨?_, ?_, ?_⟩
  · simp [Txn.txSend, GoChan.send, hclosed]
  · simp [Txn.txCommit, GoChan.chanClose, hclosed]
  · simp [Txn.txRollback, GoChan.chanClose, hclosed]

/-- Witness for C10: committing a fresh transaction and then sending,
committing, or rolling back again panics. -/
theorem c10_txn_reuse_panics_witness :
    ({ txnFresh with
        ch := { txnFresh.ch with closed := true },
        commitCh := { txnFresh.commitCh with buf := [true] } } : Txn Unit).txSend ()
      = .error .sendOnClosedChannel
    ∧ ({ txnFresh with
        ch := { txnFresh.ch with closed := true },
        commitCh := { txnFresh.commitCh with buf := [true] } } : Txn Unit).txCommit
      = .error .closeOfClosedChannel :=
  ⟨(c10_txn_reuse_panics txnFresh _ txnFresh.doneVal () (.inl (by decide))).1,
    (c10_txn_reuse_panics txnFresh _ txnFresh.doneVal () (.inl (by decide))).2.1⟩

/-- When every backend opens successfully, the open loop records one
attempt per dns and reports no error. -/
theorem openReposPhase_ok (env : Env) (l : List String)
    (h : ∀ d ∈ l, env.openTxErr d = none) :
    openReposPhase env l = (none, l.map Effect.openTx) := by
  induction l with
  | nil => rfl
  | cons d rest ih =>
    have hd : env.openTxErr d = none := h d (List.mem_cons_self _ _)
    have hrest := ih (fun x hx => h x (List.mem_cons_of_mem _ hx))
    simp only [openReposPhase, hd, hrest, List.map_cons]

/-- When every backend truncates successfully, the truncation loop records
one `truncate` effect per dns, each carrying the whole table list. -/
theorem truncatePhase_ok (env : Env) (tables : List String) (l : List String)
    (h : ∀ d ∈ l, env.truncateErr d = none) :
    truncatePhase env tables l = (none, l.map (fun d => Effect.truncate d tables)) := by
  induction l with
  | nil => rfl
  | cons d rest ih =>
    have hd : env.truncateErr d = none := h d (List.mem_cons_self _ _)
    have hrest := ih (fun x hx => h x (List.mem_cons_of_mem _ hx))
    simp only [truncatePhase, hd, hrest, List.map_cons]

/-- The commit loop characterized: its result wraps the cause of the first
failing commit (or succeeds), and its trace is one `commit` effect per
attempted backend. -/
theorem commitPhase_spec (env : Env) (l : List String) :
    commitPhase env l =
      ((match firstCommitErr env l with
        | some c => .error (.wrapped "unable to commit transaction" c)
        | none => .ok ()),
       (commitAttempts env l).map Effect.commit) := by
  induction l with
  | nil => rfl
  | cons d rest ih =>
    cases hd : env.commitErr d with
    | some e => simp only [commitPhase, firstCommitErr, commitAttempts, hd, List.map_cons,
        List.map_nil]
    | none => simp only [commitPhase, firstCommitErr, commitAttempts, hd, ih, List.map_cons]

/-- The attempted commits are an in-order prefix of the dns list: appending
the untouched remainder of the dns list recovers the dns list itself. -/
theorem commitAttempts_append_drop (env : Env) (l : List String) :
    commitAttempts env l ++ l.drop (commitAttempts env l).length = l := by
  induction l with
  | nil => rfl
  | cons d rest ih =>
    cases hd : env.commitErr d with
    | some e => simp [commitAttempts, hd]
    | none =>
      simp only [commitAttempts, hd, List.length_cons, List.drop_succ_cons, List.cons_append,
        List.cons.injEq, true_and]
      exact ih

/-- The chunk loop never changes the request's table. -/
theorem planChunks_table (env : Env) (cfgUrl : String) (ts : Timeseries)
    (table : Option String) (chunks : List (Int × Int)) (req : Request) :
    (planChunks env cfgUrl ts table chunks req).2.table = req.table := by
  induction chunks generalizing req with
  | nil => rfl
  | cons c rest ih =>
    rw [planChunks]
    cases hfc : newFetchConfig env cfgUrl
        { req with query := chunkQuery ts env.formatTime req.query c } with
    | error e => rfl
    | ok fc =>
      have hih := ih { req with query := chunkQuery ts env.formatTime req.query c }
      rcases hr : planChunks env cfgUrl ts table rest
          { req with query := chunkQuery ts env.formatTime req.query c } with ⟨res, rf⟩
      rw [hr] at hih
      cases res with
      | ok l => exact hih
      | error err => exact hih

/-- The planning step with the method already defaulted: helper for
`planRequest_table`. -/
theorem planRequest_table_core (env : Env) (cfg : Config) (req1 : Request) :
    (match newFetchConfig env cfg.url req1 with
      | .error err => ((.error err : Except GoError (List FlattenedRequest)), req1)
      | .ok fc =>
        match req1.timeseries with
        | none => (.ok [⟨fc, req1.table⟩], req1)
        | some ts =>
          match setChunks env.parseTime ts fc.url.query with
          | .error _ => (.error .settingTimeseriesChunks, req1)
          | .ok chunks => planChunks env cfg.url ts req1.table chunks req1).2.table
      = req1.table := by
  cases hfc : newFetchConfig env cfg.url req1 with
  | error e => rfl
  | ok fc =>
    cases hts : req1.timeseries with
    | none => rfl
    | some tss =>
      simp only [hts]
      cases hsc : setChunks env.parseTime tss fc.url.query with
      | error e => rfl
      | ok chunks => exact planChunks_table env cfg.url tss req1.table chunks req1

/-- The per-request planning step never changes the request's table. -/
theorem planRequest_table (env : Env) (cfg : Config) (req : Request) :
    (planRequest env cfg req).2.table = req.table := by
  have hcore := planRequest_table_core env cfg
    (if req.method = "" then { req with method := "GET" } else req)
  have ht1 : (if req.method = "" then { req with method := "GET" } else req).table
      = req.table := by
    by_cases h : req.method = "" <;> simp [h]
  have hgoal : (planRequest env cfg req).2.table
      = (if req.method = "" then { req with method := "GET" } else req).table := hcore
  rw [ht1] at hgoal
  exact hgoal

/-- On a successful planning pass the collected truncation list is exactly
one entry per request that declares a table, in order, duplicates kept. -/
theorem planPhase_tables (env : Env) (cfg : Config) (reqs : List Request)
    (flats : List FlattenedRequest) (tabs : List String) (rs : List Request)
    (h : planPhase env cfg reqs = (.ok (flats, tabs), rs)) :
    tabs = reqs.filterMap Request.table := by
  induction reqs generalizing flats tabs rs with
  | nil =>
    simp only [planPhase, Prod.mk.injEq, Except.ok.injEq] at h
    rw [← h.1.2]
    rfl
  | cons req rest ih =>
    simp only [planPhase] at h
    rcases hpr : planRequest env cfg req with ⟨res, req'⟩
    rw [hpr] at h
    cases res with
    | error e => simp at h
    | ok fl1 =>
      simp only at h
      rcases hrest : planPhase env cfg rest with ⟨res2, rs2⟩
      rw [hrest] at h
      cases res2 with
      | error e => simp at h
      | ok pair =>
        rcases pair with ⟨fl2, tl2⟩
        simp only [Prod.mk.injEq, Except.ok.injEq] at h
        obtain ⟨⟨hf, htb⟩, hrs⟩ := h
        have htab := ih fl2 tl2 rs2 (by rw [hrest])
        have hreq' : req'.table = req.table := by
          have := planRequest_table env cfg req
          rw [hpr] at this
          exact this
        rw [← htb, htab, hreq', List.filterMap_cons]
        cases req.table <;> rfl

/-- The full shape of a run of `Upsert` that reaches the commit loop:
validation, connection, opening, planning and truncation succeed, and the
run's result is the commit loop's result while its trace lists, in
order: the connect, one open per backend, the truncations (when enabled),
the pipeline stage, and one commit per attempted backend. -/
theorem upsert_shape (env : Env) (cfg : Config) (flats : List FlattenedRequest)
    (tabs : List String) (rs : List Request)
    (hv : cfg.validate = none)
    (hc : env.connectErr = none)
    (ho : ∀ d ∈ cfg.dnsList, env.openTxErr d = none)
    (hplan : planPhase env cfg cfg.requests = (.ok (flats, tabs), rs))
    (htr : ∀ d ∈ cfg.dnsList, env.truncateErr d = none) :
    Upsert env cfg = ⟨
      (match firstCommitErr env cfg.dnsList with
        | some c => .error (.wrapped "unable to commit transaction" c)
        | none => .ok ()),
      .connect :: (cfg.dnsList.map Effect.openTx
        ++ (if cfg.truncate then cfg.dnsList.map (fun d => Effect.truncate d tabs) else [])
        ++ [.startWorkers, .enqueue flats.length, .awaitDone flats.length]
        ++ (commitAttempts env cfg.dnsList).map Effect.commit),
      rs, some (cfgLimiter cfg)⟩ := by
  cases htc : cfg.truncate with
  | false =>
    simp only [Upsert, hv, hc, openReposPhase_ok env cfg.dnsList ho, hplan, htc,
      if_false, Bool.false_eq_true, commitPhase_spec, List.append_nil]
  | true =>
    simp only [Upsert, hv, hc, openReposPhase_ok env cfg.dnsList ho, hplan, htc,
      truncatePhase_ok env tabs cfg.dnsList htr, if_true, commitPhase_spec]

/-- C6: a configuration without a `rateLimit` makes `Upsert` return
`MissingConfigField("rateLimit")` with an empty effect trace — no
connection, no opened transaction, no worker, no limiter — and the
caller's requests untouched. -/
theorem c6_missing_ratelimit (env : Env) (cfg : Config)
    (h : cfg.rateLimitConfig = none) :
    Upsert env cfg = ⟨.error (.missingConfigField "rateLimit"), [], cfg.requests, none⟩ := by
  simp only [Upsert, Config.validate, h]

/-- Witness for C6 at a concrete config. -/
theorem c6_missing_ratelimit_witness :
    Upsert envOK cfgNoRL
      = ⟨.error (.missingConfigField "rateLimit"), [], [reqTable], none⟩ :=
  c6_missing_ratelimit envOK cfgNoRL rfl

/-- C3 (amended): config validation of the rate limit checks only field
presence. A present `rateLimit` with an absent burst or period makes
`Upsert` return `InvalidRateLimit` before any effect; but when both
fields are present, validation accepts the configuration whatever their
values — positivity is not checked. -/
theorem c3_validate_amended (env : Env) (cfg : Config) (rl : RateLimitConfig)
    (h : cfg.rateLimitConfig = some rl) :
    ((rl.burst = none ∨ rl.period = none) →
      Upsert env cfg = ⟨.error .invalidRateLimit, [], cfg.requests, none⟩)
    ∧ (rl.burst ≠ none → rl.period ≠ none → cfg.validate = none) := by
  constructor
  · intro hcase
    have hval : cfg.validate = some .invalidRateLimit := by
      rcases hcase with hb | hp
      · simp only [Config.validate, h, RateLimitConfig.validate, hb, if_true]
      · cases hb : rl.burst with
        | none => simp only [Config.validate, h, RateLimitConfig.validate, hb, if_true]
        | some b =>
          simp only [Config.validate, h, RateLimitConfig.validate, hb, hp]
          rfl
    simp only [Upsert, hval]
  · intro hb hp
    cases hbv : rl.burst with
    | none => exact absurd hbv hb
    | some b =>
      cases hpv : rl.period with
      | none => exact absurd hpv hp
      | some p => simp [Config.validate, h, RateLimitConfig.validate, hbv, hpv]

/-- Witness for C3's amended statement: a rate limit whose period is
absent is rejected with `InvalidRateLimit`, and one with both fields
present (`cfgZeroRL`, burst 0 and period 0) passes validation. -/
theorem c3_validate_amended_witness :
    Upsert envOK ⟨"u", [], [], some ⟨some 1, none⟩, false⟩
      = ⟨.error .invalidRateLimit, [], [], none⟩
    ∧ cfgZeroRL.validate = none :=
  ⟨(c3_validate_amended envOK ⟨"u", [], [], some ⟨some 1, none⟩, false⟩ ⟨some 1, none⟩
      rfl).1 (Or.inr rfl),
    (c3_validate_amended envOK cfgZeroRL ⟨some 0, some 0⟩ rfl).2
      (by decide) (by decide)⟩

/-- C3 counterexample: the claim says a present rate limit whose burst is
not greater than zero is rejected with `InvalidRateLimit`; but on
`cfgZeroRL` (burst 0, period 0, both present) `Upsert` runs to successful
completion instead of failing. -/
theorem c3_validate_counterexample :
    (Upsert envOK cfgZeroRL).result = .ok ()
    ∧ (Upsert envOK cfgZeroRL).result ≠ .error .invalidRateLimit := by
  refine ⟨?_, ?_⟩ <;> decide

/-- Once validation, connection and opening succeed, `Upsert` constructs
the single shared limiter from the config, whatever happens later. -/
theorem upsert_limiter_reached (env : Env) (cfg : Config)
    (hv : cfg.validate = none) (hc : env.connectErr = none)
    (ho : ∀ d ∈ cfg.dnsList, env.openTxErr d = none) :
    (Upsert env cfg).limiter = some (cfgLimiter cfg) := by
  simp only [Upsert, hv, hc, openReposPhase_ok env cfg.dnsList ho]
  rcases hpl : planPhase env cfg cfg.requests with ⟨res, rs⟩
  cases res with
  | error e => simp only [hpl]
  | ok pair =>
    rcases pair with ⟨flats, tabs⟩
    simp only [hpl]
    rcases htp : (if cfg.truncate then truncatePhase env tabs cfg.dnsList else (none, []))
      with ⟨tr, ttr⟩
    cases tr with
    | some e => simp only [htp]
    | none => simp only [htp]

/-- C1 (amended): for a valid rate-limit config with burst `B` and period
`P`, once the pre-pipeline steps succeed `Upsert` builds the single
shared limiter with burst capacity `B` and the limit `rate.Every(P / 1s)`
— the period's whole-second count reinterpreted as a nanosecond refill
interval, i.e. a rate of `10^9 / (P ÷ 1s)` tokens per second. The rate
does not depend on the burst, and a period of at least one second yields
exactly the interval `P ÷ 10^9` nanoseconds. -/
theorem c1_limiter_amended (env : Env) (cfg : Config) (rl : RateLimitConfig) (B P : Int)
    (h : cfg.rateLimitConfig = some rl) (hb : rl.burst = some B) (hp : rl.period = some P)
    (hc : env.connectErr = none)
    (ho : ∀ d ∈ cfg.dnsList, env.openTxErr d = none) :
    (Upsert env cfg).limiter = some (upsertLimiter B P)
    ∧ upsertLimiter B P = (goRateEvery (P / 1000000000), B)
    ∧ (∀ B' : Int, (upsertLimiter B' P).1 = (upsertLimiter B P).1)
    ∧ (1000000000 ≤ P → upsertLimiter B P = (.every (P / 1000000000), B)) := by
  have hv : cfg.validate = none := by
    simp [Config.validate, h, RateLimitConfig.validate, hb, hp]
  refine ⟨?_, rfl, fun B' => rfl, ?_⟩
  · rw [upsert_limiter_reached env cfg hv hc ho]
    simp [cfgLimiter, h, hb, hp]
  · intro hP
    have hpos : ¬(P / 1000000000 ≤ 0) := by omega
    simp only [upsertLimiter, goRateEvery, if_neg hpos]

/-- Witness for C1's amended statement: burst 7, period 2s yields the
limiter pair `(rate.Every(2ns), 7)`. -/
theorem c1_limiter_amended_witness :
    (Upsert envOK ⟨"u", ["d"], [], some ⟨some 7, some 2000000000⟩, false⟩).limiter
      = some (upsertLimiter 7 2000000000)
    ∧ upsertLimiter 7 2000000000 = (.every 2, 7) :=
  ⟨(c1_limiter_amended envOK ⟨"u", ["d"], [], some ⟨some 7, some 2000000000⟩, false⟩
      ⟨some 7, some 2000000000⟩ 7 2000000000 rfl rfl rfl rfl (by intro d _; rfl)).1,
    (c1_limiter_amended envOK ⟨"u", ["d"], [], some ⟨some 7, some 2000000000⟩, false⟩
      ⟨some 7, some 2000000000⟩ 7 2000000000 rfl rfl rfl rfl (by intro d _; rfl)).2.2.2
      (by decide)⟩

/-- C1 counterexample: with burst 10 and period 1s, the source passes
`rate.Every(1ns)` — a refill every nanosecond, i.e. 10^9 tokens per
second — to the limiter constructor, not the claimed `B / P = 10` tokens
per second (which is the interval `10^8` ns that `specClaimedLimiter`,
modelled from the spec's words, prescribes). -/
theorem c1_limiter_counterexample :
    (Upsert envOK cfgB10P1).limiter = some (upsertLimiter 10 1000000000)
    ∧ upsertLimiter 10 1000000000 = (.every 1, 10)
    ∧ specClaimedLimiter 10 1000000000 = (.every 100000000, 10)
    ∧ upsertLimiter 10 1000000000 ≠ specClaimedLimiter 10 1000000000 := by
  refine ⟨?_, ?_, ?_, ?_⟩ <;> decide

/-- C4 (amended): with `truncate=true`, `Upsert` collects the table names
of the requests as a list — one entry per request that declares a table,
duplicates retained, no dedup — and issues exactly one `Truncate` call
per backend, each carrying that whole list, after opening and before the
worker pools start and before any commit. -/
theorem c4_truncate_amended (env : Env) (cfg : Config) (flats : List FlattenedRequest)
    (tabs : List String) (rs : List Request)
    (hv : cfg.validate = none)
    (hc : env.connectErr = none)
    (ho : ∀ d ∈ cfg.dnsList, env.openTxErr d = none)
    (hplan : planPhase env cfg cfg.requests = (.ok (flats, tabs), rs))
    (htr : ∀ d ∈ cfg.dnsList, env.truncateErr d = none)
    (ht : cfg.truncate = true) :
    tabs = collectTables cfg
    ∧ (Upsert env cfg).trace =
        .connect :: (cfg.dnsList.map Effect.openTx
          ++ cfg.dnsList.map (fun d => Effect.truncate d (collectTables cfg))
          ++ [.startWorkers, .enqueue flats.length, .awaitDone flats.length]
          ++ (commitAttempts env cfg.dnsList).map Effect.commit) := by
  have htabs := planPhase_tables env cfg cfg.requests flats tabs rs hplan
  refine ⟨htabs, ?_⟩
  rw [upsert_shape env cfg flats tabs rs hv hc ho hplan htr]
  simp only [ht, if_true, htabs, collectTables]

/-- Witness for C4's amended statement on a config with two requests that
both declare table `"t"`: the collected list is `["t", "t"]` and the one
backend receives a single truncation carrying both entries. -/
theorem c4_truncate_amended_witness :
    ["t", "t"] = collectTables cfgDupTables
    ∧ (Upsert envOK cfgDupTables).trace =
        .connect :: (["d"].map Effect.openTx
          ++ ["d"].map (fun d => Effect.truncate d (collectTables cfgDupTables))
          ++ [.startWorkers, .enqueue 2, .awaitDone 2]
          ++ (commitAttempts envOK ["d"]).map Effect.commit) :=
  c4_truncate_amended envOK cfgDupTables
    [⟨⟨"GET", ⟨"u/x", []⟩⟩, some "t"⟩, ⟨⟨"GET", ⟨"u/x", []⟩⟩, some "t"⟩]
    ["t", "t"] [reqTable, reqTable]
    rfl rfl (by intro d _; rfl) rfl (by intro d _; rfl) rfl

/-- C4 counterexample: the claim says the collected table names form a set
with no table truncated more than once per backend; but with two requests
naming table `"t"` the truncation request `Upsert` sends to the backend
carries `"t"` twice. -/
theorem c4_truncate_counterexample :
    collectTables cfgDupTables = ["t", "t"]
    ∧ Effect.truncate "d" ["t", "t"] ∈ (Upsert envOK cfgDupTables).trace
    ∧ ¬ (["t", "t"] : List String).Nodup := by
  refine ⟨?_, ?_, ?_⟩ <;> decide

/-- C5 (amended): `Upsert` commits the backend transactions in `dnsList`
order; the backends whose commit is attempted form an in-order prefix of
`dnsList` that stops at the first failure; the first failing commit makes
`Upsert` return `fmt.Errorf("unable to commit transaction: %w", cause)` —
an error wrapping the cause but not naming the backend — already-committed
backends are not reversed, and no `Rollback` is ever invoked. -/
theorem c5_commit_amended (env : Env) (cfg : Config) (flats : List FlattenedRequest)
    (tabs : List String) (rs : List Request)
    (hv : cfg.validate = none)
    (hc : env.connectErr = none)
    (ho : ∀ d ∈ cfg.dnsList, env.openTxErr d = none)
    (hplan : planPhase env cfg cfg.requests = (.ok (flats, tabs), rs))
    (htr : ∀ d ∈ cfg.dnsList, env.truncateErr d = none) :
    (Upsert env cfg).result =
      (match firstCommitErr env cfg.dnsList with
        | some c => .error (.wrapped "unable to commit transaction" c)
        | none => .ok ())
    ∧ (Upsert env cfg).trace =
        .connect :: (cfg.dnsList.map Effect.openTx
          ++ (if cfg.truncate then cfg.dnsList.map (fun d => Effect.truncate d tabs) else [])
          ++ [.startWorkers, .enqueue flats.length, .awaitDone flats.length]
          ++ (commitAttempts env cfg.dnsList).map Effect.commit)
    ∧ commitAttempts env cfg.dnsList
        ++ cfg.dnsList.drop (commitAttempts env cfg.dnsList).length = cfg.dnsList
    ∧ (∀ d, Effect.rollback d ∉ (Upsert env cfg).trace) := by
  have hshape := upsert_shape env cfg flats tabs rs hv hc ho hplan htr
  refine ⟨?_, ?_, commitAttempts_append_drop env cfg.dnsList, ?_⟩
  · rw [hshape]
  · rw [hshape]
  · intro d
    rw [hshape]
    cases htc : cfg.truncate <;> simp

/-- Witness for C5's amended statement: two backends where the second's
commit fails with cause `boom`; `Upsert` returns the wrapping error and
both commits were attempted in order. -/
theorem c5_commit_amended_witness :
    (Upsert envBoom cfgDnsAB).result
      = .error (.wrapped "unable to commit transaction" (.external "boom"))
    ∧ commitAttempts envBoom ["a", "b"]
        ++ ["a", "b"].drop (commitAttempts envBoom ["a", "b"]).length = ["a", "b"] :=
  ⟨((c5_commit_amended envBoom cfgDnsAB [] [] [] rfl rfl (by intro d _; rfl) rfl
      (by intro d _; rfl)).1).trans (by decide),
    (c5_commit_amended envBoom cfgDnsAB [] [] [] rfl rfl (by intro d _; rfl) rfl
      (by intro d _; rfl)).2.2.1⟩

/-- C5 counterexample: the claim says the error returned on a commit
failure is `CommitError{dns, cause}`, carrying the failing backend's dns;
but renaming the failing backend from `"b"` to `"x"` leaves `Upsert`'s
returned error unchanged — the error wraps only the cause, with a fixed
message that names no backend. -/
theorem c5_commit_counterexample :
    (Upsert envBoom cfgDnsAB).result
      = .error (.wrapped "unable to commit transaction" (.external "boom"))
    ∧ (Upsert envBoom cfgDnsAX).result = (Upsert envBoom cfgDnsAB).result := by
  refine ⟨?_, ?_⟩ <;> decide

/-- Query lookup distributes over appending of query lists. -/
theorem queryGet_append (a b : List (String × String)) (n : String) :
    queryGet (a ++ b) n = queryGet a n ++ queryGet b n := by
  simp [queryGet, List.filter_append]

/-- After `Set(n, v)` the key `n` is bound exactly to `[v]`. -/
theorem queryGet_setParam_self (q : List (String × String)) (n v : String) :
    queryGet (setParam q n v) n = [v] := by
  induction q with
  | nil => simp [queryGet, setParam]
  | cons a q ih =>
    by_cases h : a.1 = n
    · simp only [setParam, queryGet, List.filter_cons, h] at ih ⊢
      simp only [bne_self_eq_false, if_false, Bool.false_eq_true]
      exact ih
    · simp only [setParam, queryGet, List.filter_cons] at ih ⊢
      simp [h]

/-- `Set(n, v)` leaves every other key's bindings unchanged. -/
theorem queryGet_setParam_ne (q : List (String × String)) (n v m : String) (h : m ≠ n) :
    queryGet (setParam q n v) m = queryGet q m := by
  have hnm : ¬ n = m := fun hh => h hh.symm
  rw [setParam, queryGet_append]
  have h2 : queryGet [(n, v)] m = [] := by simp [queryGet, hnm]
  rw [h2, List.append_nil]
  induction q with
  | nil => rfl
  | cons a q ih =>
    by_cases ha : a.1 = n
    · have ham : ¬ a.1 = m := by rw [ha]; exact hnm
      simp [queryGet, List.filter_cons, ha, ham, h, hnm] at ih ⊢
      exact ih
    · by_cases ham : a.1 = m
      · simp [queryGet, List.filter_cons, ha, ham, h, hnm] at ih ⊢
        exact ih
      · simp [queryGet, List.filter_cons, ha, ham, h, hnm] at ih ⊢
        exact ih

/-- A key has no binding in a query list iff no pair carries it. -/
theorem queryGet_eq_nil_iff (q : List (String × String)) (n : String) :
    queryGet q n = [] ↔ ∀ p ∈ q, p.1 ≠ n := by
  constructor
  · intro he p hp hpn
    have hmem : p.2 ∈ queryGet q n := by
      rw [queryGet]
      exact List.mem_map_of_mem _ (List.mem_filter.mpr ⟨hp, by simp [hpn]⟩)
    rw [he] at hmem
    simp at hmem
  · intro h
    have hfil : q.filter (fun p => p.1 == n) = [] :=
      List.filter_eq_nil_iff.mpr (fun p hp => by simpa using h p hp)
    simp [queryGet, hfil]

/-- Overlaying bindings whose keys avoid `n` does not change `n`'s value. -/
theorem queryGet_applyQuery_not_mem (uq rq : List (String × String)) (n : String)
    (h : ∀ p ∈ rq, p.1 ≠ n) :
    queryGet (applyQuery uq rq) n = queryGet uq n := by
  induction rq generalizing uq with
  | nil => rfl
  | cons a rq ih =>
    have hstep : applyQuery uq (a :: rq) = applyQuery (setParam uq a.1 a.2) rq := rfl
    rw [hstep, ih (setParam uq a.1 a.2) (fun p hp => h p (List.mem_cons_of_mem _ hp)),
      queryGet_setParam_ne]
    intro hn
    exact h a (List.mem_cons_self _ _) hn.symm

/-- If the overlay binds `n` exactly to `[v]`, then after overlaying onto
any base query, `n` is bound exactly to `[v]`. -/
theorem queryGet_applyQuery_of_single (uq rq : List (String × String)) (n v : String)
    (h : queryGet rq n = [v]) :
    queryGet (applyQuery uq rq) n = [v] := by
  induction rq generalizing uq with
  | nil => simp [queryGet] at h
  | cons a rq ih =>
    have hstep : applyQuery uq (a :: rq) = applyQuery (setParam uq a.1 a.2) rq := rfl
    by_cases ha : a.1 = n
    · subst ha
      have hv : a.2 = v ∧ queryGet rq a.1 = [] := by
        simpa [queryGet, List.filter_cons] using h
      rw [hstep, queryGet_applyQuery_not_mem _ _ _ ((queryGet_eq_nil_iff rq a.1).mp hv.2),
        queryGet_setParam_self, hv.1]
    · have hrest : queryGet rq n = [v] := by
        simpa [queryGet, List.filter_cons, ha] using h
      rw [hstep]
      exact ih (setParam uq a.1 a.2) hrest

/-- The in-place chunk mutation binds the end name exactly to the chunk's
formatted end. -/
theorem chunkQuery_end (ts : Timeseries) (format : String → Int → String)
    (q : List (String × String)) (c : Int × Int) :
    queryGet (chunkQuery ts format q c) ts.endName = [format (layoutOf ts) c.2] :=
  queryGet_setParam_self _ _ _

/-- With distinct start/end names, the in-place chunk mutation binds the
start name exactly to the chunk's formatted start. -/
theorem chunkQuery_start (ts : Timeseries) (format : String → Int → String)
    (q : List (String × String)) (c : Int × Int) (hne : ts.startName ≠ ts.endName) :
    queryGet (chunkQuery ts format q c) ts.startName = [format (layoutOf ts) c.1] := by
  rw [chunkQuery, queryGet_setParam_ne _ _ _ _ hne, queryGet_setParam_self]

/-- Unfolding of the query-state sequence: the first chunk sees the map
right after its own mutation, later chunks continue from there. -/
theorem chunkQueries_cons (ts : Timeseries) (format : String → Int → String)
    (q0 : List (String × String)) (c : Int × Int) (rest : List (Int × Int)) :
    chunkQueries ts format q0 (c :: rest)
      = chunkQuery ts format q0 c :: chunkQueries ts format (chunkQuery ts format q0 c) rest := by
  cases rest <;> simp [chunkQueries, List.scanl]

/-- Closed form of the chunk loop when the URL builder succeeds: every
chunk yields a fetch config rebuilt from the pristine parsed URL (same
path) with the mutated query overlaid, and the loop leaves the request
holding the final mutation of the shared query map. -/
theorem planChunks_ok (env : Env) (cfgUrl : String) (ts : Timeseries) (table : Option String)
    (raw : String) (uri : URL) (ep : String)
    (hjoin : env.joinPath cfgUrl ep = some raw)
    (hparse : env.parseURL raw = some uri) :
    ∀ (chunks : List (Int × Int)) (req : Request), req.endpoint = ep →
      planChunks env cfgUrl ts table chunks req =
        (.ok ((chunkQueries ts env.formatTime req.query chunks).map
            (fun q => ⟨⟨req.method, ⟨uri.path, applyQuery uri.query q⟩⟩, table⟩)),
          { req with query := chunks.foldl (chunkQuery ts env.formatTime) req.query }) := by
  intro chunks
  induction chunks with
  | nil => intro req hep; rfl
  | cons c rest ih =>
    intro req hep
    have hje : env.joinPath cfgUrl
        ({ req with query := chunkQuery ts env.formatTime req.query c } : Request).endpoint
        = some raw := by
      show env.joinPath cfgUrl req.endpoint = some raw
      rw [hep]
      exact hjoin
    have hfc : newFetchConfig env cfgUrl
        { req with query := chunkQuery ts env.formatTime req.query c }
        = .ok ⟨req.method, ⟨uri.path,
            applyQuery uri.query (chunkQuery ts env.formatTime req.query c)⟩⟩ := by
      simp only [newFetchConfig, hje, hparse]
    rw [planChunks]
    simp only [hfc]
    rw [ih { req with query := chunkQuery ts env.formatTime req.query c } hep]
    simp only [chunkQueries_cons, List.map_cons, List.foldl_cons]

/-- Reduction of the per-request planning step on a timeseries request
whose URL builds and whose chunks compute. -/
theorem planRequest_ts (env : Env) (cfg : Config) (req : Request) (ts : Timeseries)
    (raw : String) (uri : URL) (chunks : List (Int × Int))
    (hm : req.method ≠ "") (hts : req.timeseries = some ts)
    (hjoin : env.joinPath cfg.url req.endpoint = some raw)
    (hparse : env.parseURL raw = some uri)
    (hsc : setChunks env.parseTime ts (applyQuery uri.query req.query) = .ok chunks) :
    planRequest env cfg req = planChunks env cfg.url ts req.table chunks req := by
  have hfc : newFetchConfig env cfg.url req
      = .ok ⟨req.method, ⟨uri.path, applyQuery uri.query req.query⟩⟩ := by
    simp only [newFetchConfig, hjoin, hparse]
  simp only [planRequest, if_neg hm, hfc, hts, hsc]

/-- Each intermediate state of the shared query map carries exactly its
own chunk's formatted boundaries, also after being overlaid onto the
pristine URL query. -/
theorem chunkQueries_zip_lookup (ts : Timeseries) (format : String → Int → String)
    (hne : ts.startName ≠ ts.endName) (uq : List (String × String)) :
    ∀ (chunks : List (Int × Int)) (q0 : List (String × String)),
      ∀ pr ∈ (chunkQueries ts format q0 chunks).zip chunks,
        queryGet (applyQuery uq pr.1) ts.startName = [format (layoutOf ts) pr.2.1]
        ∧ queryGet (applyQuery uq pr.1) ts.endName = [format (layoutOf ts) pr.2.2] := by
  intro chunks
  induction chunks with
  | nil =>
    intro q0 pr hpr
    simp [chunkQueries, List.scanl] at hpr
  | cons c rest ih =>
    intro q0 pr hpr
    rw [chunkQueries_cons, List.zip_cons_cons] at hpr
    rcases List.mem_cons.mp hpr with rfl | hmem
    · exact ⟨queryGet_applyQuery_of_single _ _ _ _ (chunkQuery_start ts format q0 c hne),
        queryGet_applyQuery_of_single _ _ _ _ (chunkQuery_end ts format q0 c)⟩
    · exact ih (chunkQuery ts format q0 c) pr hmem

/-- After the whole chunk loop, the shared query map holds exactly the
final chunk's formatted boundaries. -/
theorem foldl_chunkQuery_last (ts : Timeseries) (format : String → Int → String)
    (hne : ts.startName ≠ ts.endName) :
    ∀ (chunks : List (Int × Int)) (q0 : List (String × String)) (c : Int × Int),
      chunks.getLast? = some c →
      queryGet (chunks.foldl (chunkQuery ts format) q0) ts.startName
        = [format (layoutOf ts) c.1]
      ∧ queryGet (chunks.foldl (chunkQuery ts format) q0) ts.endName
        = [format (layoutOf ts) c.2] := by
  intro chunks
  induction chunks with
  | nil =>
    intro q0 c h
    simp at h
  | cons d rest ih =>
    intro q0 c h
    cases rest with
    | nil =>
      simp only [List.getLast?_singleton, Option.some.injEq] at h
      subst h
      exact ⟨chunkQuery_start ts format q0 d hne, chunkQuery_end ts format q0 d⟩
    | cons e rest' =>
      rw [List.getLast?_cons_cons] at h
      exact ih (chunkQuery ts format q0 d) c h

/-- C9: during timeseries expansion the chunk loop aliases the request and
mutates its query map in place (modelled by threading the map through
`chunkQuery`); each per-chunk `FetchConfig` is rebuilt from the mutated
map, so its URL carries exactly that chunk's formatted boundaries, while
the pristine parsed URL (`uri`) is reused unchanged — same path, query
rebuilt by overlay — and after planning the caller's request holds the
final chunk's start/end values in its query map. -/
theorem c9_chunk_aliasing (env : Env) (cfg : Config) (req : Request) (ts : Timeseries)
    (raw : String) (uri : URL) (chunks : List (Int × Int))
    (hm : req.method ≠ "") (hts : req.timeseries = some ts)
    (hne : ts.startName ≠ ts.endName)
    (hjoin : env.joinPath cfg.url req.endpoint = some raw)
    (hparse : env.parseURL raw = some uri)
    (hsc : setChunks env.parseTime ts (applyQuery uri.query req.query) = .ok chunks) :
    planRequest env cfg req =
      (.ok ((chunkQueries ts env.formatTime req.query chunks).map
          (fun q => ⟨⟨req.method, ⟨uri.path, applyQuery uri.query q⟩⟩, req.table⟩)),
        { req with query := chunks.foldl (chunkQuery ts env.formatTime) req.query })
    ∧ (∀ pr ∈ (chunkQueries ts env.formatTime req.query chunks).zip chunks,
        queryGet (applyQuery uri.query pr.1) ts.startName
          = [env.formatTime (layoutOf ts) pr.2.1]
        ∧ queryGet (applyQuery uri.query pr.1) ts.endName
          = [env.formatTime (layoutOf ts) pr.2.2])
    ∧ (∀ c, chunks.getLast? = some c →
        queryGet (chunks.foldl (chunkQuery ts env.formatTime) req.query) ts.startName
          = [env.formatTime (layoutOf ts) c.1]
        ∧ queryGet (chunks.foldl (chunkQuery ts env.formatTime) req.query) ts.endName
          = [env.formatTime (layoutOf ts) c.2]) := by
  refine ⟨?_, ?_, ?_⟩
  · rw [planRequest_ts env cfg req ts raw uri chunks hm hts hjoin hparse hsc]
    exact planChunks_ok env cfg.url ts req.table raw uri req.endpoint hjoin hparse chunks req rfl
  · exact chunkQueries_zip_lookup ts env.formatTime hne uri.query chunks req.query
  · intro c hc
    exact foldl_chunkQuery_last ts env.formatTime hne chunks req.query c hc

/-- Witness for C9 on the concrete timeseries request `reqTS` (window
`"A"`..`"B"`, three one-second chunks): the planning step returns the
rebuilt fetch configs and leaves the final chunk's boundaries in the
request's query map. -/
theorem c9_chunk_aliasing_witness :
    planRequest envOK cfgTS reqTS =
      (.ok ((chunkQueries tsW envOK.formatTime reqTS.query
            [(0, 1000000000), (1000000000, 2000000000), (2000000000, 2500000000)]).map
          (fun q => ⟨⟨reqTS.method, ⟨"u/c", applyQuery [] q⟩⟩, reqTS.table⟩)),
        { reqTS with query :=
            [(0, 1000000000), (1000000000, 2000000000),
              (2000000000, 2500000000)].foldl (chunkQuery tsW envOK.formatTime) reqTS.query })
    ∧ queryGet ([(0, 1000000000), (1000000000, 2000000000),
          (2000000000, 2500000000)].foldl (chunkQuery tsW envOK.formatTime) reqTS.query)
        tsW.startName = ["s2"] := by
  have hsc : setChunks envOK.parseTime tsW (applyQuery ([] : List (String × String)) reqTS.query)
      = .ok [(0, 1000000000), (1000000000, 2000000000), (2000000000, 2500000000)] := by
    simp [setChunks, setChunksLoop, queryGet, applyQuery, setParam, reqTS, tsW, envOK, layoutOf,
      List.filter, List.foldl]
  have h9 := c9_chunk_aliasing envOK cfgTS reqTS tsW "u/c" ⟨"u/c", []⟩
    [(0, 1000000000), (1000000000, 2000000000), (2000000000, 2500000000)]
    (by decide) rfl (by decide) rfl rfl hsc
  refine ⟨h9.1, ?_⟩
  have := (h9.2.2 (2000000000, 2500000000) rfl).1
  simpa [envOK] using this
